import Mathlib

/-!
Verification of the calendar-view synchronization surface of the
obsidian-full-calendar plugin (`src/view.ts`).

The in-memory calendar model of the rendering widget is embedded as a list of
model events (the widget keeps an ordered event collection; `getEventById`
returns the first event whose id matches, `addEvent` appends, and removing an
event returned by `getEventById` deletes that first occurrence).  The view's
notification handlers (`onCacheUpdate` for metadata changes, and the delete and
rename handlers registered in `onOpen`) are translated directly from
`src/view.ts`.  Helper functions that live in modules not present here
(`crud.ts`, `frontmatter.ts`) are modelled from the specification and are
marked as such in their doc comments.
-/

namespace FullCalendar

/-- Event fields decoded from a document's metadata: title, start timestamp,
optional end timestamp, all-day flag, and an optional event-level display
color. -/
structure EventData where
  title : String
  start : Nat
  endTime : Option Nat
  allDay : Bool
  color : Option String
deriving DecidableEq, Repr

/-- An event input handed to the rendering widget: the identity (the backing
document's path) together with the decoded fields. -/
structure EventInput where
  id : String
  data : EventData
deriving DecidableEq, Repr

/-- A live event inside the rendering widget's in-memory model
(`CalendarModelEvent`), keyed by the backing document path. -/
structure ModelEvent where
  id : String
  title : String
  start : Nat
  endTime : Option Nat
  allDay : Bool
  color : String
  textColor : String
deriving DecidableEq, Repr

/-- The tagged union of calendar source configurations
(`LocalCalendarSource` / `GoogleCalendarSource` / `ICalendarSource` in
`types.ts`). -/
inductive CalendarSource where
  | localSource (directory : String) (color : Option String)
  | gcal (url : String) (color : Option String)
  | ical (url : String) (color : Option String)
deriving DecidableEq, Repr

/-- The optional color carried by a source configuration. -/
def sourceColorOf : CalendarSource → Option String
  | .localSource _ c => c
  | .gcal _ c => c
  | .ical _ c => c

/-- JavaScript's `s.startsWith(pre)`: the character sequence of `pre` is a
prefix of the character sequence of `s`. -/
def strStartsWith (s pre : String) : Bool :=
  pre.data.isPrefixOf s.data

/-- The predicate used by `onCacheUpdate` to find the source a changed file
belongs to: `c.type === "local" && file.path.startsWith(c.directory)`
(src/view.ts lines 51-53). -/
def sourceMatches (path : String) : CalendarSource → Bool
  | .localSource dir _ => strStartsWith path dir
  | .gcal _ _ => false
  | .ical _ _ => false

/-- The host metadata index: maps a document path to its decoded event fields,
or `none` when the document does not describe an event. -/
abbrev MetadataCache : Type := String → Option EventData

/-- Modelled from the spec: `getEventInputFromFile` (crud.ts, not under src/)
decodes a document's metadata into an event record; the record's identity is
the backing document's path, and `none` is returned when the document does not
describe an event ("callers must treat null as not a calendar document"). -/
def getEventInputFromFile (cache : MetadataCache) (path : String) : Option EventInput :=
  (cache path).map fun d => { id := path, data := d }

/-- The ambient inputs a cache-update transition reads: the configured calendar
sources (`this.plugin.settings.calendarSources`), the metadata index, and the
two computed theme style values (`--interactive-accent`,
`--text-on-accent`). -/
structure Ctx where
  calendarSources : List CalendarSource
  cache : MetadataCache
  accent : String
  textOnAccent : String

/-- The widget's in-memory event collection. -/
abbrev CalendarState : Type := List ModelEvent

/-- `calendar.getEventById(id)`: the first event in the model whose id
matches. -/
def getEventById : CalendarState → String → Option ModelEvent
  | [], _ => none
  | e :: es, p => if e.id = p then some e else getEventById es p

/-- Removing the event returned by `getEventById`: deletes the first event
with the given id, a no-op when no event has that id. -/
def removeFirstById : CalendarState → String → CalendarState
  | [], _ => []
  | e :: es, p => if e.id = p then es else e :: removeFirstById es p

/-- The event object passed to `calendar.addEvent` in `onCacheUpdate`
(src/view.ts lines 61-71): defaults `color: calendar.color || accent` and
`textColor: textOnAccent`, then spreads `...newEventData`, so a color present
on the decoded record overrides the source/theme default. -/
def addedEvent (ctx : Ctx) (src : CalendarSource) (input : EventInput) : ModelEvent :=
  { id := input.id
    title := input.data.title
    start := input.data.start
    endTime := input.data.endTime
    allDay := input.data.allDay
    color := input.data.color.getD ((sourceColorOf src).getD ctx.accent)
    textColor := ctx.textOnAccent }

/-- `CalendarView.onCacheUpdate` (src/view.ts lines 50-73), acting on a
non-null widget model: find the local source whose directory the changed
file's path starts with, look up the existing event at the path, decode the
file; when a source matched and decode produced a record, remove the existing
event if present and append the freshly built one. -/
def onCacheUpdate (ctx : Ctx) (s : CalendarState) (path : String) : CalendarState :=
  let calendar := ctx.calendarSources.find? (sourceMatches path)
  let calendarEvent := getEventById s path
  let newEventData := getEventInputFromFile ctx.cache path
  match calendar, newEventData with
  | some src, some input =>
      (if calendarEvent.isSome then removeFirstById s path else s)
        ++ [addedEvent ctx src input]
  | _, _ => s

/-- The host's abstract file argument of vault notifications: a plain file
(`TFile`) or anything else (a folder). -/
inductive TAbstractFile where
  | file (path : String)
  | folder (path : String)
deriving DecidableEq, Repr

/-- The vault `delete` handler registered in `onOpen` (src/view.ts lines
210-220): only for a plain file, look up the event at the file's path and
remove it when present. -/
def onDelete (s : CalendarState) (f : TAbstractFile) : CalendarState :=
  match f with
  | .file p =>
      match getEventById s p with
      | some _ => removeFirstById s p
      | none => s
  | .folder _ => s

/-- The vault `rename` handler registered in `onOpen` (src/view.ts lines
221-233): remove the event at the old path when present, then, when the
renamed entry is a plain file, run the metadata-changed transition on its new
path. -/
def onRename (ctx : Ctx) (s : CalendarState) (f : TAbstractFile) (oldPath : String) :
    CalendarState :=
  let s1 :=
    match getEventById s oldPath with
    | some _ => removeFirstById s oldPath
    | none => s
  match f with
  | .file p => onCacheUpdate ctx s1 p
  | .folder _ => s1

/-- The view's widget field `this.calendar`, which is `null` before `onOpen`
and after `onClose`. -/
abbrev ViewState : Type := Option CalendarState

/-- `onCacheUpdate` at the view level: the optional chaining
`this.calendar?.getEventById` / `this.calendar?.addEvent` makes the handler a
no-op when the widget is `null`. -/
def viewCacheUpdate (ctx : Ctx) (v : ViewState) (path : String) : ViewState :=
  v.map fun s => onCacheUpdate ctx s path

/-- The delete handler at the view level (`this.calendar?.getEventById`). -/
def viewDelete (v : ViewState) (f : TAbstractFile) : ViewState :=
  v.map fun s => onDelete s f

/-- The rename handler at the view level. -/
def viewRename (ctx : Ctx) (v : ViewState) (f : TAbstractFile) (oldPath : String) : ViewState :=
  v.map fun s => onRename ctx s f oldPath

/-- `CalendarView.onClose` (src/view.ts lines 240-245): destroy the widget if
present and set the field to `null`. -/
def onClose (v : ViewState) : ViewState :=
  match v with
  | some _ => none
  | none => none

/-- A vault/metadata notification delivered to the view's registered
handlers. -/
inductive VaultEvent where
  | metadataChanged (path : String)
  | deleted (f : TAbstractFile)
  | renamed (f : TAbstractFile) (oldPath : String)

/-- One notification applied to the in-memory model; the context is taken
per-event since settings and metadata may change between notifications. -/
def step (ctx : Ctx) (ev : VaultEvent) (s : CalendarState) : CalendarState :=
  match ev with
  | .metadataChanged p => onCacheUpdate ctx s p
  | .deleted f => onDelete s f
  | .renamed f old => onRename ctx s f old

/-- A finite sequence of notifications applied in arrival order. -/
def runEvents : List (Ctx × VaultEvent) → CalendarState → CalendarState
  | [], s => s
  | (c, e) :: rest, s => runEvents rest (step c e s)

/-- The number of model events carrying a given identity. -/
def countId (s : CalendarState) (p : String) : Nat :=
  (s.filter fun e => e.id = p).length

/-- A path lying inside a directory's subtree, following the spec's words ("a
Local source owns a directory subtree"): the path continues the directory name
past a path separator.  Stated separately from `sourceMatches`, which embeds
the raw `startsWith` test of the code, so the two scope notions can be
compared. -/
def inDirectorySubtree (path dir : String) : Bool :=
  strStartsWith path (dir ++ "/")

/-- The tag test `s.type === "local"`. -/
def CalendarSource.isLocal : CalendarSource → Bool
  | .localSource _ _ => true
  | .gcal _ _ => false
  | .ical _ _ => false

/-- The tag test `s.type === "gcal"`. -/
def CalendarSource.isGcal : CalendarSource → Bool
  | .gcal _ _ => true
  | .localSource _ _ => false
  | .ical _ _ => false

/-- The `directory` field of a local source (the `as LocalCalendarSource` cast
is only applied after filtering on the tag, so the default is never reached
there). -/
def localDirectoryOf : CalendarSource → String
  | .localSource d _ => d
  | .gcal _ _ => ""
  | .ical _ _ => ""

/-- The `url` field of a remote source. -/
def sourceUrlOf : CalendarSource → String
  | .gcal u _ => u
  | .ical u _ => u
  | .localSource _ _ => ""

/-- The host vault's directory listing service: the contained document paths,
or `none` when the configured path does not resolve to a directory. -/
structure Vault where
  listDirectory : String → Bool → Option (List String)

/-- The widget's event-source shape built in `onOpen`: a local source's decoded
event collection, or the wrapper around a Google calendar id. -/
inductive EventSourceInput where
  | localEvents (events : List EventInput) (color : Option String)
  | googleCal (googleCalendarId : String) (color : String) (textColor : String) (editable : Bool)
deriving DecidableEq, Repr

/-- Modelled from the spec: `getEventSourceFromLocalSource` (crud.ts, not under
src/) walks the source's configured directory (honouring the recursion flag),
decodes every contained document, discards the nulls, and returns the widget's
event-source shape; returns `none` ("null") when the configured path does not
resolve to a directory. -/
def getEventSourceFromLocalSource (vault : Vault) (cache : MetadataCache)
    (src : CalendarSource) (recursive : Bool) : Option EventSourceInput :=
  (vault.listDirectory (localDirectoryOf src) recursive).map fun paths =>
    .localEvents (paths.filterMap (getEventInputFromFile cache)) (sourceColorOf src)

/-- The persisted plugin settings read by `onOpen`. -/
structure Settings where
  calendarSources : List CalendarSource
  recursiveLocal : Bool

/-- What `onOpen` puts into the view's container: the inline error text, or a
calendar rendered from the built source list. -/
inductive OpenResult where
  | errorText (msg : String)
  | rendered (sources : List EventSourceInput)
deriving DecidableEq, Repr

/-- JavaScript truthiness of the `sources` array: `!sources` is `false` for
every array value, an empty array included, because arrays are objects and
objects are truthy. -/
def jsArrayIsFalsy (_sources : List EventSourceInput) : Bool :=
  false

/-- The inline error text of src/view.ts lines 135-136. -/
def missingDirectoryMessage : String :=
  "Error: the events directory was not a directory. Please change your events directory in settings."

/-- The source construction and `!sources` guard of `CalendarView.onOpen`
(src/view.ts lines 75-138): build one source per local config and drop the
`null` results, append one wrapper per gcal config, then display the inline
error text when `!sources` holds and otherwise render the calendar from the
built list. -/
def onOpen (vault : Vault) (cache : MetadataCache) (settings : Settings)
    (accent textOnAccent : String) : OpenResult :=
  let sources :=
    (((settings.calendarSources.filter CalendarSource.isLocal).map fun src =>
        getEventSourceFromLocalSource vault cache src settings.recursiveLocal).filterMap id)
      ++ ((settings.calendarSources.filter CalendarSource.isGcal).map fun src =>
        EventSourceInput.googleCal (sourceUrlOf src)
          ((sourceColorOf src).getD accent) textOnAccent false)
  if jsArrayIsFalsy sources then .errorText missingDirectoryMessage
  else .rendered sources

/-- The widget-side event object handed to the `modifyEvent` callback after a
move/resize edit. -/
structure EventApi where
  id : String
  title : String
  start : Nat
  endTime : Option Nat
  allDay : Bool
deriving DecidableEq, Repr

/-- The metadata fragment written back into a document. -/
structure Frontmatter where
  title : String
  start : Nat
  endTime : Option Nat
  allDay : Bool
deriving DecidableEq, Repr

/-- Modelled from the spec: `eventApiToFrontmatter` (frontmatter.ts, not under
src/) is the inverse mapping persisting a UI edit, keeping the all-day
distinction. -/
def eventApiToFrontmatter (ev : EventApi) : Frontmatter :=
  { title := ev.title, start := ev.start, endTime := ev.endTime, allDay := ev.allDay }

/-- Modelled from the spec: `getPathPrefix` of crud.ts (not under src/), the
directory portion of an event identity ("its identity encodes a directory
prefix and a derived filename from its title"). -/
def getPathParent (path : String) : String :=
  (path.dropRightWhile fun c => c ≠ '/').dropRight 1

/-- The Identity Resolver's outcome for a (directory, title) lookup. -/
inductive ResolveOutcome where
  | unique (doc : String)
  | notFound
  | ambiguous
deriving DecidableEq, Repr

/-- The external collaborators the `modifyEvent` callback talks to: the
by-identity document lookup (`getFileForEvent`), the (directory, title)
resolver, and whether a metadata write to a given document succeeds. -/
structure EditEnv where
  getFileForEvent : String → Option String
  resolveByDirectoryAndTitle : String → String → ResolveOutcome
  writeSucceeds : String → Bool

/-- Modelled from the spec: `upsertLocalEvent` (crud.ts, not under src/)
resolves the backing document from the directory and the edited title; an
ambiguous or failed resolution aborts with no write and reports failure, a
unique resolution writes the encoded range and reports success exactly when
the write succeeds.  The second component records the paths written. -/
def upsertLocalEvent (env : EditEnv) (directory : String) (fm : Frontmatter)
    (_eventId : String) : Bool × List String :=
  match env.resolveByDirectoryAndTitle directory fm.title with
  | .ambiguous => (false, [])
  | .notFound => (false, [])
  | .unique doc => if env.writeSucceeds doc then (true, [doc]) else (false, [doc])

/-- What a `modifyEvent` invocation returns and does: the boolean handed back
to the widget, the document writes performed, and the `Notice` texts shown. -/
structure ModifyResult where
  success : Bool
  writes : List String
  notices : List String
deriving DecidableEq, Repr

/-- The duplicate-title warning of src/view.ts lines 187-189. -/
def duplicateEventNotice : String :=
  "Multiple events with the same name on the same date are not yet supported. Please rename your event before moving it."

/-- The `modifyEvent` callback (src/view.ts lines 175-192): resolve the backing
document, failing outright when it cannot be found; otherwise upsert the edited
frontmatter, showing the duplicate-title notice on failure; the in-memory
model is returned untouched in every branch, mirroring that the handler never
calls into the widget model. -/
def modifyEvent (env : EditEnv) (s : CalendarState) (ev : EventApi) :
    ModifyResult × CalendarState :=
  match env.getFileForEvent ev.id with
  | none => ({ success := false, writes := [], notices := [] }, s)
  | some _ =>
      let r := upsertLocalEvent env (getPathParent ev.id) (eventApiToFrontmatter ev) ev.id
      if r.1 then ({ success := true, writes := r.2, notices := [] }, s)
      else ({ success := false, writes := r.2, notices := [duplicateEventNotice] }, s)

/-! Concrete fixtures used by witnesses and counterexamples. -/

/-- A sample decoded record without an event-level color. -/
def sampleData : EventData :=
  { title := "Meeting", start := 10, endTime := some 11, allDay := false, color := none }

/-- A sample decoded record carrying an event-level color. -/
def coloredData : EventData :=
  { title := "Meeting", start := 10, endTime := some 11, allDay := false, color := some "red" }

/-- A local source rooted at `events` carrying the source color `blue`. -/
def sampleSource : CalendarSource := .localSource "events" (some "blue")

/-- A context with one local source rooted at `events` and one decodable
document `events/a.md`. -/
def sampleCtx : Ctx :=
  { calendarSources := [sampleSource]
    cache := fun p => if p = "events/a.md" then some coloredData else none
    accent := "acc"
    textOnAccent := "toa" }

/-- The decoded record of `events/a.md` under `sampleCtx`. -/
def sampleInput : EventInput := { id := "events/a.md", data := coloredData }

/-- A context in which the rename target `events/b.md` decodes and lies under
the configured source directory. -/
def renameOkCtx : Ctx :=
  { calendarSources := [sampleSource]
    cache := fun p => if p = "events/b.md" then some sampleData else none
    accent := "acc"
    textOnAccent := "toa" }

/-- A metadata index in which no document describes an event. -/
def emptyCache : MetadataCache := fun _ => none

/-- A model event at identity `events/a.md`. -/
def sampleEvent : ModelEvent :=
  { id := "events/a.md", title := "Old", start := 1, endTime := none, allDay := true
    color := "blue", textColor := "toa" }

/-- A context whose only local source is rooted at `events` while the document
`other/a.md` still decodes to a record. -/
def renameCtx : Ctx :=
  { calendarSources := [.localSource "events" none]
    cache := fun p => if p = "other/a.md" then some sampleData else none
    accent := "acc"
    textOnAccent := "toa" }

/-- A context whose only local source is rooted at directory `foo` while the
sibling document `foobar.md` decodes to a record. -/
def scopeCtx : Ctx :=
  { calendarSources := [.localSource "foo" none]
    cache := fun p => if p = "foobar.md" then some sampleData else none
    accent := "acc"
    textOnAccent := "toa" }

/-- A vault in which no configured path resolves to a directory. -/
def missingDirVault : Vault :=
  { listDirectory := fun _ _ => none }

/-- Settings with a single local source whose directory is missing. -/
def missingDirSettings : Settings :=
  { calendarSources := [.localSource "events" none], recursiveLocal := true }

/-- An edit environment in which no document resolves. -/
def emptyEditEnv : EditEnv :=
  { getFileForEvent := fun _ => none
    resolveByDirectoryAndTitle := fun _ _ => .notFound
    writeSucceeds := fun _ => false }

/-- An edit environment resolving `events/a.md` uniquely with a succeeding
write. -/
def okEditEnv : EditEnv :=
  { getFileForEvent := fun p => if p = "events/a.md" then some "events/a.md" else none
    resolveByDirectoryAndTitle := fun d t =>
      if d = "events" ∧ t = "Meeting" then .unique "events/a.md" else .notFound
    writeSucceeds := fun _ => true }

/-- A widget event at identity `events/a.md`, as handed to `modifyEvent`. -/
def sampleEventApi : EventApi :=
  { id := "events/a.md", title := "Meeting", start := 12, endTime := some 13, allDay := false }

/-! Counting lemmas about the in-memory model. -/

theorem countId_cons (e : ModelEvent) (s : CalendarState) (p : String) :
    countId (e :: s) p = (if e.id = p then 1 else 0) + countId s p := by
  by_cases h : e.id = p <;> simp [countId, List.filter_cons, h, Nat.add_comm]

theorem countId_append (s t : CalendarState) (p : String) :
    countId (s ++ t) p = countId s p + countId t p := by
  simp [countId, List.filter_append]

theorem countId_singleton (e : ModelEvent) (p : String) :
    countId [e] p = if e.id = p then 1 else 0 := by
  by_cases h : e.id = p <;> simp [countId, List.filter_cons, h]

theorem getEventById_eq_none_iff (s : CalendarState) (p : String) :
    getEventById s p = none ↔ countId s p = 0 := by
  induction s with
  | nil => simp [getEventById, countId]
  | cons e es ih =>
      by_cases h : e.id = p <;> simp [getEventById, countId_cons, h, ih]

theorem countId_pos_of_getEventById (s : CalendarState) (p : String) (e : ModelEvent)
    (h : getEventById s p = some e) : 1 ≤ countId s p := by
  by_contra hlt
  have h0 : countId s p = 0 := by omega
  rw [(getEventById_eq_none_iff s p).mpr h0] at h
  exact Option.noConfusion h

theorem countId_removeFirstById_self (s : CalendarState) (p : String) :
    countId (removeFirstById s p) p = countId s p - 1 := by
  induction s with
  | nil => simp [removeFirstById, countId]
  | cons e es ih =>
      by_cases h : e.id = p <;> simp [removeFirstById, countId_cons, h, ih]

theorem countId_removeFirstById_ne (s : CalendarState) (p q : String) (h : q ≠ p) :
    countId (removeFirstById s p) q = countId s q := by
  induction s with
  | nil => rfl
  | cons e es ih =>
      by_cases he : e.id = p
      · have hq : e.id ≠ q := fun hh => h (hh ▸ he ▸ rfl)
        have hpq : ¬p = q := fun hh => h hh.symm
        simp [removeFirstById, he, countId_cons, hq, hpq]
      · simp [removeFirstById, he, countId_cons, ih]

theorem countId_removeFirstById_le (s : CalendarState) (p q : String) :
    countId (removeFirstById s p) q ≤ countId s q := by
  by_cases h : q = p
  · subst h
    rw [countId_removeFirstById_self]
    omega
  · rw [countId_removeFirstById_ne s p q h]

theorem countId_eq_zero_notMem (s : CalendarState) (q : String) (h : countId s q = 0)
    (e : ModelEvent) (he : e ∈ s) : e.id ≠ q := by
  intro hid
  have hmem : e ∈ s.filter fun x => x.id = q := List.mem_filter.mpr ⟨he, by simp [hid]⟩
  unfold countId at h
  rw [List.length_eq_zero] at h
  rw [h] at hmem
  exact List.not_mem_nil e hmem

theorem getEventInputFromFile_id (cache : MetadataCache) (path : String) (input : EventInput)
    (h : getEventInputFromFile cache path = some input) : input.id = path := by
  unfold getEventInputFromFile at h
  cases hc : cache path with
  | none => rw [hc] at h; exact Option.noConfusion h
  | some d =>
      rw [hc] at h
      simp only [Option.map_some'] at h
      cases h
      rfl

theorem addedEvent_id (ctx : Ctx) (src : CalendarSource) (input : EventInput) :
    (addedEvent ctx src input).id = input.id := rfl

/-! Preservation of the at-most-one-per-identity invariant. -/

theorem countId_onCacheUpdate_le_one (ctx : Ctx) (s : CalendarState) (path p : String)
    (h : countId s p ≤ 1) : countId (onCacheUpdate ctx s path) p ≤ 1 := by
  simp only [onCacheUpdate]
  cases hf : ctx.calendarSources.find? (sourceMatches path) with
  | none =>
      cases hd : getEventInputFromFile ctx.cache path <;> simpa using h
  | some src =>
      cases hd : getEventInputFromFile ctx.cache path with
      | none => simpa using h
      | some input =>
          have hid : input.id = path := getEventInputFromFile_id ctx.cache path input hd
          have haid : (addedEvent ctx src input).id = path := by rw [addedEvent_id, hid]
          rw [countId_append, countId_singleton, haid]
          by_cases hpq : path = p
          · subst hpq
            rw [if_pos rfl]
            cases hge : getEventById s path with
            | some e =>
                have h1 := countId_removeFirstById_self s path
                simp only [hge, Option.isSome_some, if_true]
                omega
            | none =>
                have h0 : countId s path = 0 := (getEventById_eq_none_iff s path).mp hge
                simp [hge]
                omega
          · rw [if_neg hpq]
            have hle : countId (if (getEventById s path).isSome
                then removeFirstById s path else s) p ≤ 1 := by
              cases hge : getEventById s path with
              | some e =>
                  simp only [hge, Option.isSome_some, if_true]
                  exact le_trans (countId_removeFirstById_le s path p) h
              | none => simpa [hge] using h
            omega

theorem countId_onDelete_le (s : CalendarState) (f : TAbstractFile) (p : String) :
    countId (onDelete s f) p ≤ countId s p := by
  cases f with
  | folder _ => exact le_refl _
  | file q =>
      cases hge : getEventById s q with
      | some e => simp only [onDelete, hge]; exact countId_removeFirstById_le s q p
      | none => simp [onDelete, hge]

theorem countId_step_le_one (ctx : Ctx) (ev : VaultEvent) (s : CalendarState) (p : String)
    (h : countId s p ≤ 1) : countId (step ctx ev s) p ≤ 1 := by
  cases ev with
  | metadataChanged q => exact countId_onCacheUpdate_le_one ctx s q p h
  | deleted f => exact le_trans (countId_onDelete_le s f p) h
  | renamed f old =>
      simp only [step, onRename]
      have h1 : countId (match getEventById s old with
          | some _ => removeFirstById s old
          | none => s) p ≤ 1 := by
        cases hge : getEventById s old with
        | some e => simp only [hge]; exact le_trans (countId_removeFirstById_le s old p) h
        | none => simpa [hge] using h
      cases f with
      | file q => exact countId_onCacheUpdate_le_one ctx _ q p h1
      | folder _ => exact h1

/-- C1: for every identity `p`, after any finite sequence of metadata-changed,
delete, and rename transitions applied to the in-memory calendar model, at
most one CalendarModelEvent with id `p` exists in the model (given that the
starting model already satisfied this bound for `p`). -/
theorem single_identity_invariant (p : String) (l : List (Ctx × VaultEvent))
    (s : CalendarState) (h : countId s p ≤ 1) :
    countId (runEvents l s) p ≤ 1 := by
  induction l generalizing s with
  | nil => simpa [runEvents] using h
  | cons ce rest ih =>
      obtain ⟨c, e⟩ := ce
      simpa only [runEvents] using ih (step c e s) (countId_step_le_one c e s p h)

/-- Witness for C1 at a concrete starting model and a concrete three-step
notification sequence. -/
theorem single_identity_invariant_witness :
    countId [sampleEvent] "events/a.md" ≤ 1 ∧
      countId (runEvents
        [(sampleCtx, .metadataChanged "events/a.md"),
         (sampleCtx, .renamed (.file "events/b.md") "events/a.md"),
         (sampleCtx, .deleted (.file "events/b.md"))]
        [sampleEvent]) "events/a.md" ≤ 1 :=
  ⟨by decide,
   single_identity_invariant "events/a.md"
     [(sampleCtx, .metadataChanged "events/a.md"),
      (sampleCtx, .renamed (.file "events/b.md") "events/a.md"),
      (sampleCtx, .deleted (.file "events/b.md"))]
     [sampleEvent] (by decide)⟩

/-- C2: for a metadata-changed notification whose path decodes to a record and
lies within an active Local source's prefix scope, with an event already
present at the path, the handler removes the existing event and then appends
the freshly decoded one, and the added event's display color is resolved as
event-level color first, then source color, then theme accent. -/
theorem metadata_changed_remove_before_add (ctx : Ctx) (s : CalendarState) (path : String)
    (src : CalendarSource) (input : EventInput) (e : ModelEvent)
    (hsrc : ctx.calendarSources.find? (sourceMatches path) = some src)
    (hdec : getEventInputFromFile ctx.cache path = some input)
    (hpres : getEventById s path = some e) :
    onCacheUpdate ctx s path = removeFirstById s path ++ [addedEvent ctx src input]
    ∧ (∀ c, input.data.color = some c → (addedEvent ctx src input).color = c)
    ∧ (input.data.color = none → ∀ sc, sourceColorOf src = some sc →
        (addedEvent ctx src input).color = sc)
    ∧ (input.data.color = none → sourceColorOf src = none →
        (addedEvent ctx src input).color = ctx.accent) := by
  refine ⟨?_, ?_, ?_, ?_⟩
  · simp only [onCacheUpdate, hsrc, hdec, hpres, Option.isSome_some, if_true]
  · intro c hc
    simp [addedEvent, hc]
  · intro hc sc hsc
    simp [addedEvent, hc, hsc]
  · intro hc hsc
    simp [addedEvent, hc, hsc]

/-- Witness for C2: under `sampleCtx`, the changed document `events/a.md`
decodes to a record with an event-level color `red`, an event is present, and
the handler produces remove-then-add with the event-level color winning. -/
theorem metadata_changed_remove_before_add_witness :
    getEventById [sampleEvent] "events/a.md" = some sampleEvent
    ∧ onCacheUpdate sampleCtx [sampleEvent] "events/a.md" =
        removeFirstById [sampleEvent] "events/a.md" ++ [addedEvent sampleCtx sampleSource sampleInput]
    ∧ (addedEvent sampleCtx sampleSource sampleInput).color = "red" :=
  ⟨by decide,
   (metadata_changed_remove_before_add sampleCtx [sampleEvent] "events/a.md" sampleSource
      sampleInput sampleEvent (by decide) (by decide) (by decide)).1,
   (metadata_changed_remove_before_add sampleCtx [sampleEvent] "events/a.md" sampleSource
      sampleInput sampleEvent (by decide) (by decide) (by decide)).2.1 "red" (by decide)⟩

/-- C7: a metadata-changed notification whose decode yields `null` leaves the
model unchanged even when an event is present at the path: the existing
CalendarModelEvent is neither removed nor replaced. -/
theorem decode_null_leaves_model_unchanged (ctx : Ctx) (s : CalendarState) (path : String)
    (e : ModelEvent) (hdec : getEventInputFromFile ctx.cache path = none)
    (_hpres : getEventById s path = some e) :
    onCacheUpdate ctx s path = s := by
  simp only [onCacheUpdate, hdec]
  cases ctx.calendarSources.find? (sourceMatches path) <;> rfl

/-- Witness for C7: under `renameOkCtx` the document `events/a.md` no longer
decodes, yet the present event at that identity survives untouched. -/
theorem decode_null_leaves_model_unchanged_witness :
    getEventInputFromFile renameOkCtx.cache "events/a.md" = none
    ∧ getEventById [sampleEvent] "events/a.md" = some sampleEvent
    ∧ onCacheUpdate renameOkCtx [sampleEvent] "events/a.md" = [sampleEvent] :=
  ⟨by decide, by decide,
   decode_null_leaves_model_unchanged renameOkCtx [sampleEvent] "events/a.md" sampleEvent
     (by decide) (by decide)⟩

/-- C8: a delete notification for a plain file at path `p` removes the event
at `p` when present, leaving no event with that identity; when no event is
present it is a no-op with no state change. -/
theorem delete_transition (s : CalendarState) (p : String) (hinv : countId s p ≤ 1) :
    (getEventById s p = none → onDelete s (.file p) = s)
    ∧ (∀ e, getEventById s p = some e →
        onDelete s (.file p) = removeFirstById s p
        ∧ countId (onDelete s (.file p)) p = 0) := by
  constructor
  · intro hge
    simp [onDelete, hge]
  · intro e hge
    have hpos := countId_pos_of_getEventById s p e hge
    constructor
    · simp [onDelete, hge]
    · simp only [onDelete, hge]
      rw [countId_removeFirstById_self]
      omega

/-- Witness for C8 at a one-event model: deleting the backing file empties the
identity, and deleting an unrelated file changes nothing. -/
theorem delete_transition_witness :
    countId [sampleEvent] "events/a.md" ≤ 1
    ∧ countId (onDelete [sampleEvent] (.file "events/a.md")) "events/a.md" = 0
    ∧ (countId [sampleEvent] "events/x.md" ≤ 1
        ∧ onDelete [sampleEvent] (.file "events/x.md") = [sampleEvent]) :=
  ⟨by decide,
   ((delete_transition [sampleEvent] "events/a.md" (by decide)).2 sampleEvent (by decide)).2,
   by decide,
   (delete_transition [sampleEvent] "events/x.md" (by decide)).1 (by decide)⟩

/-- C9: `onClose` releases the widget instance (the calendar field becomes
`null`), and every notification handler invoked afterwards leaves the view
state unchanged: no dangling callback operates on the destroyed widget. -/
theorem close_releases_widget (v : ViewState) (ctx : Ctx) (path : String)
    (f : TAbstractFile) (oldPath : String) :
    onClose v = none
    ∧ viewCacheUpdate ctx (onClose v) path = onClose v
    ∧ viewDelete (onClose v) f = onClose v
    ∧ viewRename ctx (onClose v) f oldPath = onClose v := by
  have h : onClose v = none := by cases v <;> rfl
  refine ⟨h, ?_, ?_, ?_⟩ <;> rw [h] <;> rfl

/-- C10: a delete notification whose argument is not a plain file (a folder)
leaves the in-memory model completely unchanged, even when documents inside
the folder back events still present in the model. -/
theorem delete_folder_leaves_model_unchanged (s : CalendarState) (p : String) :
    onDelete s (.folder p) = s := rfl

/-- C5 counterexample: with the single Local source rooted at directory `foo`,
the document `foobar.md` lies outside the source's directory subtree (and
outside every configured source's subtree, there being only one), yet its
metadata-changed notification adds an event to the model, because the handler
tests a raw string prefix rather than subtree membership. -/
theorem directory_scope_counterexample :
    scopeCtx.calendarSources = [.localSource "foo" none]
    ∧ inDirectorySubtree "foobar.md" "foo" = false
    ∧ (getEventInputFromFile scopeCtx.cache "foobar.md").isSome = true
    ∧ countId (onCacheUpdate scopeCtx [] "foobar.md") "foobar.md" = 1 := by
  decide

/-- C5 (amended): a metadata-changed notification for a document whose path
does not have any active Local source's configured directory as a string
prefix (the `startsWith` test of the code, rather than directory-subtree
membership) leaves the model unchanged, even when the document decodes
successfully. -/
theorem directory_scope_filter (ctx : Ctx) (s : CalendarState) (path : String)
    (h : ∀ src ∈ ctx.calendarSources, sourceMatches path src = false) :
    onCacheUpdate ctx s path = s := by
  have hf : ctx.calendarSources.find? (sourceMatches path) = none :=
    List.find?_eq_none.mpr fun x hx => by simp [h x hx]
  simp only [onCacheUpdate, hf]

/-- Witness for the amended C5: `zzz.md` shares no prefix with the configured
directory `foo`, so its notification is dropped. -/
theorem directory_scope_filter_witness :
    (∀ src ∈ scopeCtx.calendarSources, sourceMatches "zzz.md" src = false)
    ∧ onCacheUpdate scopeCtx [sampleEvent] "zzz.md" = [sampleEvent] :=
  ⟨by decide, directory_scope_filter scopeCtx [sampleEvent] "zzz.md" (by decide)⟩

/-- C3 counterexample: renaming `events/a.md` (which holds an event) to
`other/a.md` (whose document still decodes to a record) does not re-establish
the identity: the new path lies outside the configured source directory, so
afterwards no event exists at `other/a.md`, refuting "exactly one exists at
newPath". -/
theorem rename_destroy_recreate_counterexample :
    getEventById [sampleEvent] "events/a.md" = some sampleEvent
    ∧ (getEventInputFromFile renameCtx.cache "other/a.md").isSome = true
    ∧ countId (onRename renameCtx [sampleEvent] (.file "other/a.md") "events/a.md")
        "other/a.md" = 0 := by
  decide

/-- C3 (amended): for a rename of a plain file from `oldPath` to `newPath`
where `oldPath` held an event, `newPath`'s document still decodes to a record,
and additionally `newPath` lies within an active Local source's prefix scope
(and the model held at most one event per identity): afterwards no event
exists at `oldPath`, exactly one exists at `newPath`, and that event's fields
match a fresh decode of `newPath`'s document. -/
theorem rename_destroy_recreate (ctx : Ctx) (s : CalendarState) (oldPath newPath : String)
    (src : CalendarSource) (input : EventInput) (e : ModelEvent)
    (hne : oldPath ≠ newPath)
    (hold : getEventById s oldPath = some e)
    (holdinv : countId s oldPath ≤ 1)
    (hnewinv : countId s newPath ≤ 1)
    (hsrc : ctx.calendarSources.find? (sourceMatches newPath) = some src)
    (hdec : getEventInputFromFile ctx.cache newPath = some input) :
    countId (onRename ctx s (.file newPath) oldPath) oldPath = 0
    ∧ countId (onRename ctx s (.file newPath) oldPath) newPath = 1
    ∧ ∀ e2 ∈ onRename ctx s (.file newPath) oldPath, e2.id = newPath →
        e2 = addedEvent ctx src input := by
  have hior : onRename ctx s (.file newPath) oldPath
      = onCacheUpdate ctx (removeFirstById s oldPath) newPath := by
    simp only [onRename, hold]
  have hpos := countId_pos_of_getEventById s oldPath e hold
  have hold1 : countId s oldPath = 1 := le_antisymm holdinv hpos
  set s1 := removeFirstById s oldPath with hs1def
  have hs1old : countId s1 oldPath = 0 := by
    rw [hs1def, countId_removeFirstById_self, hold1]
  have hs1new : countId s1 newPath = countId s newPath :=
    countId_removeFirstById_ne s oldPath newPath (fun hh => hne hh.symm)
  have hid : input.id = newPath := getEventInputFromFile_id ctx.cache newPath input hdec
  have haid : (addedEvent ctx src input).id = newPath := by rw [addedEvent_id, hid]
  have hcu : onCacheUpdate ctx s1 newPath =
      (if (getEventById s1 newPath).isSome then removeFirstById s1 newPath else s1)
        ++ [addedEvent ctx src input] := by
    simp only [onCacheUpdate, hsrc, hdec]
  set front := (if (getEventById s1 newPath).isSome then removeFirstById s1 newPath else s1)
    with hfrontdef
  have hfront_old : countId front oldPath = 0 := by
    rw [hfrontdef]
    cases hge : getEventById s1 newPath with
    | some e2 =>
        simp only [hge, Option.isSome_some, if_true]
        rw [countId_removeFirstById_ne s1 newPath oldPath hne]
        exact hs1old
    | none => simpa [hge] using hs1old
  have hfront_new : countId front newPath = 0 := by
    rw [hfrontdef]
    cases hge : getEventById s1 newPath with
    | some e2 =>
        have hp2 := countId_pos_of_getEventById s1 newPath e2 hge
        simp only [hge, Option.isSome_some, if_true]
        rw [countId_removeFirstById_self]
        omega
    | none =>
        simpa [hge] using (getEventById_eq_none_iff s1 newPath).mp hge
  refine ⟨?_, ?_, ?_⟩
  · rw [hior, hcu, countId_append, countId_singleton, hfront_old, haid,
      if_neg (fun hh => hne hh.symm)]
  · rw [hior, hcu, countId_append, countId_singleton, hfront_new, haid, if_pos rfl]
  · intro e2 hmem hide2
    rw [hior, hcu] at hmem
    rcases List.mem_append.mp hmem with hl | hr
    · exact absurd hide2 (countId_eq_zero_notMem front newPath hfront_new e2 hl)
    · simpa using hr

/-- Witness for the amended C3: renaming `events/a.md` to `events/b.md`, which
still decodes and stays inside the source directory, destroys the old identity
and recreates exactly one event at the new one. -/
theorem rename_destroy_recreate_witness :
    countId (onRename renameOkCtx [sampleEvent] (.file "events/b.md") "events/a.md")
        "events/a.md" = 0
    ∧ countId (onRename renameOkCtx [sampleEvent] (.file "events/b.md") "events/a.md")
        "events/b.md" = 1 := by
  have h := rename_destroy_recreate renameOkCtx [sampleEvent] "events/a.md" "events/b.md"
    sampleSource { id := "events/b.md", data := sampleData } sampleEvent
    (by decide) (by decide) (by decide) (by decide) (by decide) (by decide)
  exact ⟨h.1, h.2.1⟩

/-- C4: the `modifyEvent` callback fails without a write and without touching
the model when the backing document cannot be resolved; when the write-back
reports failure it shows the duplicate-title warning and returns failure; it
returns success only when the document write succeeded; and it never mutates
the in-memory model. -/
theorem modify_event_error_handling (env : EditEnv) (s : CalendarState) (ev : EventApi) :
    (env.getFileForEvent ev.id = none →
      modifyEvent env s ev = ({ success := false, writes := [], notices := [] }, s))
    ∧ (∀ doc, env.getFileForEvent ev.id = some doc →
        (upsertLocalEvent env (getPathParent ev.id) (eventApiToFrontmatter ev) ev.id).1 = false →
        (modifyEvent env s ev).1.success = false
        ∧ (modifyEvent env s ev).1.notices = [duplicateEventNotice])
    ∧ ((modifyEvent env s ev).1.success = true →
        ∃ d, (modifyEvent env s ev).1.writes = [d] ∧ env.writeSucceeds d = true)
    ∧ (modifyEvent env s ev).2 = s := by
  refine ⟨?_, ?_, ?_, ?_⟩
  · intro h
    simp [modifyEvent, h]
  · intro doc hdoc hfail
    simp [modifyEvent, hdoc, hfail]
  · intro hsucc
    cases hdoc : env.getFileForEvent ev.id with
    | none => simp [modifyEvent, hdoc] at hsucc
    | some doc =>
        cases hres : env.resolveByDirectoryAndTitle (getPathParent ev.id)
            (eventApiToFrontmatter ev).title with
        | ambiguous => simp [modifyEvent, upsertLocalEvent, hdoc, hres] at hsucc
        | notFound => simp [modifyEvent, upsertLocalEvent, hdoc, hres] at hsucc
        | unique d =>
            by_cases hw : env.writeSucceeds d = true
            · exact ⟨d, by simp [modifyEvent, upsertLocalEvent, hdoc, hres, hw], hw⟩
            · simp [modifyEvent, upsertLocalEvent, hdoc, hres, hw] at hsucc
  · cases hdoc : env.getFileForEvent ev.id with
    | none => simp [modifyEvent, hdoc]
    | some doc =>
        simp only [modifyEvent, hdoc]
        cases (upsertLocalEvent env (getPathParent ev.id) (eventApiToFrontmatter ev) ev.id).1 <;>
          simp

/-- Witness for C4: in an environment where no document resolves, a move edit
fails with no write, no notice, and an untouched model; in an environment with
a unique resolution and a succeeding write, it succeeds. -/
theorem modify_event_error_handling_witness :
    emptyEditEnv.getFileForEvent sampleEventApi.id = none
    ∧ modifyEvent emptyEditEnv [sampleEvent] sampleEventApi =
        ({ success := false, writes := [], notices := [] }, [sampleEvent])
    ∧ (modifyEvent okEditEnv [sampleEvent] sampleEventApi).2 = [sampleEvent] :=
  ⟨by decide,
   (modify_event_error_handling emptyEditEnv [sampleEvent] sampleEventApi).1 (by decide),
   (modify_event_error_handling okEditEnv [sampleEvent] sampleEventApi).2.2.2⟩

/-- C6 (refuting the claimed behavior): with a single Local source whose
configured directory is missing, the source build returns `null`, yet `onOpen`
renders a calendar built from the empty source list instead of displaying the
inline error message: the `!sources` guard can never fire, since `sources` is
an array and arrays are truthy in JavaScript. -/
theorem missing_directory_renders_empty_calendar :
    getEventSourceFromLocalSource missingDirVault emptyCache
        (.localSource "events" none) true = none
    ∧ onOpen missingDirVault emptyCache missingDirSettings "acc" "toa" =
        .rendered [] := by
  decide

end FullCalendar
